import Mathlib

/-!
Verification of the ucx historical-record encoding subsystem and of the
pipeline-mapping loader.

The historical encoder and history log (`HistoricalEncoder.to_historical`,
`HistoryLog.append_inventory_snapshot`) live in the repository module
`databricks/labs/ucx/progress/history.py`, which is not part of the source
tree available here (only its unit tests are).  Those components are
therefore modelled from the specification: every definition concerned
carries a doc comment starting with `Modelled from the spec:`.

`PipelineMapping.load` is translated directly from
`src/databricks/labs/ucx/hive_metastore/pipelines_migrate.py`.
-/

/-- Python-style errors observable from the modelled components.
`attributeError obj attr` models `AttributeError(name=attr, obj=obj)` with the
class name standing in for the class object. -/
inductive PyError where
  | attributeError : String → String → PyError
  | typeError : String → PyError
  | valueError : String → PyError
  | notFoundError : PyError
  | otherError : String → PyError
deriving DecidableEq, Repr

/-- Raw encoding failures detected while serialising a field value, before the
outermost field name is attached to the message.  `badValue descr detail`
models a value that cannot be represented (Python raises `TypeError` from
`json.dumps`); `descr` describes the value and `detail` is the library detail
text. -/
inductive RawErr where
  | naiveTimestamp : RawErr
  | badValue : String → String → RawErr
deriving DecidableEq, Repr

/-- Modelled from the spec: timestamps are timezone-aware or naive; aware
timestamps are kept directly as their UTC components, since the spec requires
rendering "as strict ISO-8601 in UTC with a literal Z suffix". -/
structure Timestamp where
  year : Nat
  month : Nat
  day : Nat
  hour : Nat
  minute : Nat
  second : Nat
  aware : Bool
deriving DecidableEq, Repr

def pad2 (n : Nat) : String := if n < 10 then "0" ++ toString n else toString n

def pad4 (n : Nat) : String :=
  if n < 10 then "000" ++ toString n
  else if n < 100 then "00" ++ toString n
  else if n < 1000 then "0" ++ toString n
  else toString n

/-- Modelled from the spec: ISO-8601 UTC rendering with a literal Z suffix. -/
def isoZ (t : Timestamp) : String :=
  pad4 t.year ++ "-" ++ pad2 t.month ++ "-" ++ pad2 t.day ++ "T" ++
    pad2 t.hour ++ ":" ++ pad2 t.minute ++ ":" ++ pad2 t.second ++ "Z"

/-- Static type tag of a dataclass field, as far as the encoder inspects it. -/
inductive JTag where
  | string : JTag
  | int : JTag
  | bool : JTag
  | timestamp : JTag
  | nested : String → JTag
  | obj : JTag
  | seq : JTag → JTag
  | option : JTag → JTag
deriving DecidableEq, Repr

/-- Python-style rendering of a type tag, used in construction-time error
messages such as "Historical record class has invalid failures type: list[int]". -/
def JTag.typeName : JTag → String
  | .string => "str"
  | .int => "int"
  | .bool => "bool"
  | .timestamp => "datetime"
  | .nested n => n
  | .obj => "object"
  | .seq t => "list[" ++ t.typeName ++ "]"
  | .option t => t.typeName ++ " | None"

/-- Modelled from the spec: a field type is treated as string-valued when it is
string or nullable string ("If the field's static type is string (including
nullable-string), the value is copied verbatim"). -/
def JTag.isStringLike : JTag → Bool
  | .string => true
  | .option .string => true
  | _ => false

mutual
/-- Runtime value of a dataclass field: absent/None, primitives, a nested
structured record, a sequence, or a value that JSON serialisation cannot
represent (`pyObj descr detail`). -/
inductive JValue where
  | jnull : JValue
  | str : String → JValue
  | int : Int → JValue
  | bool : Bool → JValue
  | timestamp : Timestamp → JValue
  | pyObj : String → String → JValue
  | list : JList → JValue
  | record : JFields → JValue
deriving DecidableEq, Repr
/-- A sequence of runtime values. -/
inductive JList where
  | nil : JList
  | cons : JValue → JList → JList
deriving DecidableEq, Repr
/-- The named fields of a nested structured value, in declaration order. -/
inductive JFields where
  | fnil : JFields
  | fcons : String → JValue → JFields → JFields
deriving DecidableEq, Repr
end

def hexDigit (n : Nat) : Char := if n < 10 then Char.ofNat (48 + n) else Char.ofNat (87 + n)

/-- JSON escaping for one character, matching compact `json.dumps` output for
the characters it escapes. -/
def jsonEscapeChar (c : Char) : String :=
  if c = '"' then "\\\""
  else if c = '\\' then "\\\\"
  else if c = '\n' then "\\n"
  else if c = '\t' then "\\t"
  else if c = '\r' then "\\r"
  else if c.toNat < 32 then
    "\\u00" ++ String.singleton (hexDigit (c.toNat / 16)) ++ String.singleton (hexDigit (c.toNat % 16))
  else String.singleton c

/-- A JSON string literal: quoted and escaped. -/
def jsonStr (s : String) : String :=
  "\"" ++ String.join (s.data.map jsonEscapeChar) ++ "\""

mutual
/-- Modelled from the spec: canonical compact JSON encoding of a value.
Absent values render as null, booleans as lowercase true/false, integers as
decimal text, aware timestamps as ISO-8601 UTC with a Z suffix; a naive
timestamp or an unrepresentable value anywhere in the tree is an error. -/
def encodeJson : JValue → Except RawErr String
  | .jnull => .ok "null"
  | .str s => .ok (jsonStr s)
  | .int n => .ok (toString n)
  | .bool b => .ok (if b then "true" else "false")
  | .timestamp t => if t.aware then .ok (isoZ t) else .error .naiveTimestamp
  | .pyObj d dd => .error (.badValue d dd)
  | .list xs =>
    match encodeJsonList xs with
    | .error e => .error e
    | .ok parts => .ok ("[" ++ String.intercalate "," parts ++ "]")
  | .record fs =>
    match encodeJsonFields fs with
    | .error e => .error e
    | .ok parts => .ok ("\x7b" ++ String.intercalate "," parts ++ "\x7d")
/-- Compact JSON encoding of the elements of a sequence, in order. -/
def encodeJsonList : JList → Except RawErr (List String)
  | .nil => .ok []
  | .cons v tl =>
    match encodeJson v with
    | .error e => .error e
    | .ok s =>
      match encodeJsonList tl with
      | .error e => .error e
      | .ok rest => .ok (s :: rest)
/-- Compact JSON encoding of the fields of a nested record: one
name-colon-value part per field, in declaration order. -/
def encodeJsonFields : JFields → Except RawErr (List String)
  | .fnil => .ok []
  | .fcons g v tl =>
    match encodeJson v with
    | .error e => .error e
    | .ok s =>
      match encodeJsonFields tl with
      | .error e => .error e
      | .ok rest => .ok ((jsonStr g ++ ":" ++ s) :: rest)
end

mutual
/-- True when a timezone-naive timestamp occurs anywhere in the value tree. -/
def containsNaive : JValue → Bool
  | .timestamp t => !t.aware
  | .list xs => containsNaiveList xs
  | .record fs => containsNaiveFields fs
  | _ => false
/-- True when a naive timestamp occurs in any element of the sequence. -/
def containsNaiveList : JList → Bool
  | .nil => false
  | .cons v tl => containsNaive v || containsNaiveList tl
/-- True when a naive timestamp occurs in any field value. -/
def containsNaiveFields : JFields → Bool
  | .fnil => false
  | .fcons _ v tl => containsNaive v || containsNaiveFields tl
end

mutual
/-- True when an unrepresentable value occurs anywhere in the value tree. -/
def hasBadValue : JValue → Bool
  | .pyObj _ _ => true
  | .list xs => hasBadValueList xs
  | .record fs => hasBadValueFields fs
  | _ => false
/-- True when an unrepresentable value occurs in any element of the sequence. -/
def hasBadValueList : JList → Bool
  | .nil => false
  | .cons v tl => hasBadValue v || hasBadValueList tl
/-- True when an unrepresentable value occurs in any field value. -/
def hasBadValueFields : JFields → Bool
  | .fnil => false
  | .fcons _ v tl => hasBadValue v || hasBadValueFields tl
end

/-- A record instance: the values of its named fields, in declaration order. -/
abbrev Record := List (String × JValue)

/-- The current value of a field of a record; a missing entry reads as absent,
matching a dataclass attribute holding None. -/
def valueOf (r : Record) (f : String) : JValue := (List.lookup f r).getD .jnull

/-- Extract the underlying string of a string value (identity-field and
failures values are string-typed by construction-time validation). -/
def strOf : JValue → String
  | .str s => s
  | _ => ""

/-- Convert a sequence value into a list of strings, element-wise. -/
def toStrings : JList → List String
  | .nil => []
  | .cons v tl => strOf v :: toStrings tl

/-- Build a sequence value from a list of strings. -/
def ofStrings : List String → JList
  | [] => .nil
  | s :: tl => .cons (.str s) (ofStrings tl)

/-- Modelled from the spec: a record type definition, giving the type name,
the declared fields with their static type tags (in field-declaration order),
and the declared identity fields (the `__id_fields__` class metadata; `none`
when the type declares no identity-fields metadata). -/
structure RecordType where
  name : String
  fields : List (String × JTag)
  idFields : Option (List String)
deriving DecidableEq, Repr

/-- Whether the record type declares a failures field. -/
def RecordType.hasFailuresField (k : RecordType) : Bool :=
  (List.lookup "failures" k.fields).isSome

/-- Modelled from the spec: the process-wide version string, read once per
encoder construction. -/
def ucxVersion : String := "0.0.0"

/-- Modelled from the spec: a shape-validated encoder for one record type,
holding the caller-supplied constants and the validated identity-field list. -/
structure HistoricalEncoder where
  job_run_id : Int
  workspace_id : Int
  klass : RecordType
  idFieldNames : List String
deriving DecidableEq, Repr

/-- First declared identity field whose declared type is not string, if any. -/
def findNonStringId (fields : List (String × JTag)) : List String → Option String
  | [] => none
  | f :: rest =>
    match List.lookup f fields with
    | some .string => findNonStringId fields rest
    | _ => some f

/-- Modelled from the spec: encoder construction.  Validation happens here,
exactly once: a missing (or empty) identity-fields declaration is a
missing-attribute error; a non-string identity field is a type error; a
failures field whose type is not an ordered sequence of string is a type
error. -/
def HistoricalEncoder.make (job_run_id workspace_id : Int) (klass : RecordType) :
    Except PyError HistoricalEncoder :=
  match klass.idFields with
  | none => .error (.attributeError klass.name "__id_fields__")
  | some [] => .error (.attributeError klass.name "__id_fields__")
  | some ids =>
    match findNonStringId klass.fields ids with
    | some f => .error (.typeError ("Historical record class id field is not a string: " ++ f))
    | none =>
      match List.lookup "failures" klass.fields with
      | none => .ok ⟨job_run_id, workspace_id, klass, ids⟩
      | some tag =>
        if tag = .seq .string then .ok ⟨job_run_id, workspace_id, klass, ids⟩
        else .error (.typeError ("Historical record class has invalid failures type: " ++ tag.typeName))

/-- Attach the outermost field name to a raw encoding failure, producing the
error the encoder raises. -/
def errAt (f : String) : RawErr → PyError
  | .naiveTimestamp =>
    .valueError ("Timestamp without timezone not supported in or within field " ++ f)
  | .badValue d dd =>
    .typeError ("Cannot encode " ++ d ++ " value in or within field " ++ f ++ ": " ++ dd)

/-- Modelled from the spec: textual encoding of one top-level field value.
A string-typed (including nullable-string) field is copied verbatim; any other
field is rendered as canonical compact JSON. -/
def encodeTop (tag : JTag) (v : JValue) : Except RawErr String :=
  if tag.isStringLike then
    match v with
    | .str s => .ok s
    | w => encodeJson w
  else encodeJson v

/-- Modelled from the spec: build the `data` mapping by iterating every
declared field except the failures field, in declaration order; an absent
value is omitted entirely; an encoding failure aborts with an error naming the
outermost field. -/
def encodeFields (r : Record) : List (String × JTag) → Except PyError (List (String × String))
  | [] => .ok []
  | (f, tag) :: rest =>
    if f = "failures" then encodeFields r rest
    else if valueOf r f = .jnull then encodeFields r rest
    else
      match encodeTop tag (valueOf r f) with
      | .error e => .error (errAt f e)
      | .ok s =>
        match encodeFields r rest with
        | .error e => .error e
        | .ok tl => .ok ((f, s) :: tl)

/-- The uniform historical row produced by encoding. -/
structure Historical where
  workspace_id : Int
  job_run_id : Int
  object_type : String
  object_id : List String
  data : List (String × String)
  failures : List String
  owner : String
  ucx_version : String
deriving DecidableEq, Repr

/-- Modelled from the spec: the value of the `failures` attribute — the value
of the failures field, or the empty sequence when the type declares none. -/
def failuresOf (k : RecordType) (r : Record) : List String :=
  if k.hasFailuresField then
    match valueOf r "failures" with
    | .list xs => toStrings xs
    | _ => []
  else []

/-- Modelled from the spec: encode one record instance into a historical row.
No shape validation happens here; the only failures are per-value encoding
errors. -/
def HistoricalEncoder.to_historical (e : HistoricalEncoder) (ownerOf : Record → String)
    (r : Record) : Except PyError Historical :=
  match encodeFields r e.klass.fields with
  | .error err => .error err
  | .ok data =>
    .ok
      { workspace_id := e.workspace_id
        job_run_id := e.job_run_id
        object_type := e.klass.name
        object_id := e.idFieldNames.map (fun f => strOf (valueOf r f))
        data := data
        failures := failuresOf e.klass r
        owner := ownerOf r
        ucx_version := ucxVersion }

/-- Modelled from the spec: the history log owns a destination table identity
and an internal encoder. -/
structure HistoryLog where
  encoder : HistoricalEncoder
  catalog : String
  schema : String
  table : String
deriving DecidableEq, Repr

/-- Modelled from the spec: history-log construction builds exactly one
encoder (shape validated once) and fills in the default schema `ucx` and
default table `history` when unspecified. -/
def HistoryLog.make (klass : RecordType) (run_id workspace_id : Int) (catalog : String)
    (schema : Option String) (table : Option String) : Except PyError HistoryLog :=
  match HistoricalEncoder.make run_id workspace_id klass with
  | .error e => .error e
  | .ok enc => .ok ⟨enc, catalog, schema.getD "ucx", table.getD "history"⟩

/-- The fully-qualified destination table name, `catalog.schema.table`. -/
def HistoryLog.full_name (l : HistoryLog) : String :=
  l.catalog ++ "." ++ l.schema ++ "." ++ l.table

/-- One backend append call: destination table, rows, and write mode. -/
structure AppendCall where
  table : String
  rows : List Historical
  mode : String
deriving DecidableEq, Repr

/-- Encode a snapshot of records in input order, eagerly and in full; the
first encoding failure aborts the whole batch. -/
def encodeAll (e : HistoricalEncoder) (ownerOf : Record → String) :
    List Record → Except PyError (List Historical)
  | [] => .ok []
  | r :: rest =>
    match e.to_historical ownerOf r with
    | .error err => .error err
    | .ok h =>
      match encodeAll e ownerOf rest with
      | .error err => .error err
      | .ok tl => .ok (h :: tl)

/-- Modelled from the spec: append a snapshot — encode every record first, in
input order, then submit all rows through a single backend append call in
append mode to the fully-qualified table name.  The returned list holds the
backend calls performed; an encoding error yields no call at all. -/
def HistoryLog.append_inventory_snapshot (l : HistoryLog) (ownerOf : Record → String)
    (records : List Record) : Except PyError (List AppendCall) :=
  match encodeAll l.encoder ownerOf records with
  | .error err => .error err
  | .ok rows => .ok [⟨l.full_name, rows, "append"⟩]

/-- A pipeline-mapping rule, translated from `PipelineRule` in
`hive_metastore/pipelines_migrate.py`. -/
structure PipelineRule where
  workspace_name : String
  src_pipeline_id : String
  target_catalog_name : Option String := none
  target_schema_name : Option String := none
  target_pipeline_name : Option String := none
deriving DecidableEq, Repr

/-- Outcome of `installation.load` for the pipeline-mapping file: the parsed
rules, a NotFound error when the file is absent, or some other error. -/
inductive InstallError where
  | notFound : InstallError
  | otherError : String → InstallError
deriving DecidableEq, Repr

/-- Translated from `PipelineMapping.load`: delegate to the installation
loader; when the file is absent (`NotFound`) raise
`ValueError("Please create pipeline mapping file")` suppressing the original
error (`from None`); propagate any other error unchanged. -/
def PipelineMapping.load (result : Except InstallError (List PipelineRule)) :
    Except PyError (List PipelineRule) :=
  match result with
  | .ok rules => .ok rules
  | .error .notFound => .error (.valueError "Please create pipeline mapping file")
  | .error (.otherError m) => .error (.otherError m)

/-- True exactly when a load outcome is a propagated NotFound error. -/
def isNotFoundResult : Except PyError (List PipelineRule) → Bool
  | .error .notFoundError => true
  | _ => false

/-- Number of fields of a nested record value. -/
def JFields.size : JFields → Nat
  | .fnil => 0
  | .fcons _ _ tl => tl.size + 1

/-- The i-th field (name and value) of a nested record value. -/
def JFields.nth : JFields → Nat → Option (String × JValue)
  | .fnil, _ => none
  | .fcons g v _, 0 => some (g, v)
  | .fcons _ _ tl, n + 1 => tl.nth n

/-- Constant ownership resolver used by the concrete examples. -/
def ownerConst : Record → String := fun _ => "mickey"

/-- The `_TestRecord` type of the unit tests: a string field, an int field and
a failures field, with `a_field` as the only identity field. -/
def testRecordType : RecordType :=
  ⟨"_TestRecord",
    [("a_field", .string), ("b_field", .int), ("failures", .seq .string)],
    some ["a_field"]⟩

/-- The encoder produced for `_TestRecord` with job_run_id 1, workspace_id 2. -/
def testRecordEncoder : HistoricalEncoder := ⟨1, 2, testRecordType, ["a_field"]⟩

/-- A `_TestRecord` instance with two failures. -/
def testRecordFoo : Record :=
  [("a_field", .str "foo"), ("b_field", .int 10),
   ("failures", .list (ofStrings ["failures-1", "failures-2"]))]

/-- A `_TestRecord` instance whose int-typed field holds a naive timestamp, so
that encoding it fails. -/
def badTsRecord : Record :=
  [("a_field", .str "bar"), ("b_field", .timestamp ⟨2024, 10, 15, 12, 44, 16, false⟩),
   ("failures", .list .nil)]

/-- The string-fields `_AClass` example of the unit tests. -/
def stringsClass : RecordType :=
  ⟨"_AClass",
    [("a_field", .string), ("existing_json_field", .string),
     ("optional_string_field", .option .string)],
    some ["a_field"]⟩

/-- The encoder produced for the string-fields example. -/
def stringsEncoder : HistoricalEncoder := ⟨1, 2, stringsClass, ["a_field"]⟩

/-- The string-fields record instance: all values are strings, one of which
looks like JSON. -/
def stringsRecordValue : Record :=
  [("a_field", .str "value"), ("existing_json_field", .str "[1, 2, 3]"),
   ("optional_string_field", .str "value")]

/-- The compound-key `_CompoundKey` example: fields declared a, b, c but
identity fields declared in the order (a_field, c_field, b_field). -/
def compoundKeyClass : RecordType :=
  ⟨"_CompoundKey",
    [("a_field", .string), ("b_field", .string), ("c_field", .string)],
    some ["a_field", "c_field", "b_field"]⟩

/-- The encoder produced for the compound-key example. -/
def compoundKeyEncoder : HistoricalEncoder :=
  ⟨1, 2, compoundKeyClass, ["a_field", "c_field", "b_field"]⟩

/-- The compound-key record instance. -/
def compoundKeyRecord : Record :=
  [("a_field", .str "field-a"), ("b_field", .str "field-b"), ("c_field", .str "field-c")]

/-- The per-field identity values of the compound-key record instance. -/
def compoundKeyValue : String → String :=
  fun f => if f = "a_field" then "field-a" else if f = "b_field" then "field-b" else "field-c"

/-- The `_OuterclassWithTimestamps` example: an optional timestamp field and an
optional nested record holding a timestamp. -/
def naiveTsClass : RecordType :=
  ⟨"_OuterclassWithTimestamps",
    [("object_id", .string), ("a_field", .option .timestamp),
     ("inner", .option (.nested "_InnerClassWithTimestamp"))],
    some ["object_id"]⟩

/-- The encoder produced for the naive-timestamp example. -/
def naiveTsEncoder : HistoricalEncoder := ⟨1, 2, naiveTsClass, ["object_id"]⟩

/-- A record whose nested `inner.b_field` holds a timezone-naive timestamp. -/
def naiveTsRecordInner : Record :=
  [("object_id", .str "not used"), ("a_field", .jnull),
   ("inner", .record (.fcons "b_field" (.timestamp ⟨2024, 10, 15, 12, 44, 16, false⟩) .fnil))]

/-- The `_OuterclassWithUnserializable` example: an optional `object`-typed
field and an optional nested record holding an `object`-typed field. -/
def badValueClass : RecordType :=
  ⟨"_OuterclassWithUnserializable",
    [("object_id", .string), ("a_field", .option .obj),
     ("inner", .option (.nested "_InnerClassWithUnserializable"))],
    some ["object_id"]⟩

/-- The encoder produced for the unserializable-value example. -/
def badValueEncoder : HistoricalEncoder := ⟨1, 2, badValueClass, ["object_id"]⟩

/-- A record whose nested `inner.b_field` holds an unserializable value. -/
def badValueRecordInner : Record :=
  [("object_id", .str "not used"), ("a_field", .jnull),
   ("inner", .record (.fcons "b_field"
     (.pyObj "object" "Object of type object is not JSON serializable") .fnil))]

/-- The missing-optional-values example: a top-level optional field and a
nested record with an optional field, both absent. -/
def optionalClass : RecordType :=
  ⟨"_AClassOpt",
    [("a_field", .string), ("optional_field", .option .string),
     ("nested", .nested "_InnerClass")],
    some ["a_field"]⟩

/-- The encoder produced for the missing-optional-values example. -/
def optionalEncoder : HistoricalEncoder := ⟨1, 2, optionalClass, ["a_field"]⟩

/-- The record instance with both optional fields absent. -/
def optionalRecord : Record :=
  [("a_field", .str "value"), ("optional_field", .jnull),
   ("nested", .record (.fcons "optional_field" .jnull .fnil))]

/-- A history log over `_TestRecord` with an explicit destination. -/
def testLog : HistoryLog := ⟨testRecordEncoder, "the_catalog", "the_schema", "the_table"⟩

/-- The historical row encoded from `testRecordFoo`. -/
def testFooHistorical : Historical :=
  ⟨2, 1, "_TestRecord", ["foo"], [("a_field", "foo"), ("b_field", "10")],
    ["failures-1", "failures-2"], "mickey", ucxVersion⟩

/-- The historical row encoded from `stringsRecordValue`. -/
def stringsHistorical : Historical :=
  ⟨2, 1, "_AClass", ["value"],
    [("a_field", "value"), ("existing_json_field", "[1, 2, 3]"),
     ("optional_string_field", "value")],
    [], "mickey", ucxVersion⟩

/-- The historical row encoded from `optionalRecord`. -/
def optionalHistorical : Historical :=
  ⟨2, 1, "_AClassOpt", ["value"],
    [("a_field", "value"), ("nested", "\x7b\"optional_field\":null\x7d")],
    [], "mickey", ucxVersion⟩

/-- The historical row encoded from `compoundKeyRecord`. -/
def compoundKeyHistorical : Historical :=
  ⟨2, 1, "_CompoundKey", ["field-a", "field-c", "field-b"],
    [("a_field", "field-a"), ("b_field", "field-b"), ("c_field", "field-c")],
    [], "mickey", ucxVersion⟩

theorem toStrings_ofStrings : ∀ (l : List String), toStrings (ofStrings l) = l
  | [] => rfl
  | s :: tl => by simp [ofStrings, toStrings, strOf, toStrings_ofStrings tl]

theorem encodeTop_jnull (tag : JTag) : encodeTop tag .jnull = .ok "null" := by
  by_cases h : tag.isStringLike = true <;> simp [encodeTop, h, encodeJson]

theorem encodeTop_not_stringLike (tag : JTag) (v : JValue) (h : tag.isStringLike = false) :
    encodeTop tag v = encodeJson v := by
  simp [encodeTop, h]

theorem encodeTop_stringLike_str (tag : JTag) (s : String) (h : tag.isStringLike = true) :
    encodeTop tag (.str s) = .ok s := by
  simp [encodeTop, h]

theorem make_ok_spec (jr wi : Int) (k : RecordType) (e : HistoricalEncoder)
    (h : HistoricalEncoder.make jr wi k = .ok e) :
    e.klass = k ∧ e.job_run_id = jr ∧ e.workspace_id = wi ∧
      k.idFields = some e.idFieldNames := by
  unfold HistoricalEncoder.make at h
  split at h
  · simp at h
  · simp at h
  next ids heq =>
    split at h
    · simp at h
    · split at h
      · cases h
        exact ⟨rfl, rfl, rfl, heq⟩
      · split at h
        · cases h
          exact ⟨rfl, rfl, rfl, heq⟩
        · simp at h

theorem to_historical_ok (e : HistoricalEncoder) (o : Record → String) (r : Record)
    (h : Historical) (hok : e.to_historical o r = .ok h) :
    encodeFields r e.klass.fields = .ok h.data ∧
      h.object_id = e.idFieldNames.map (fun f => strOf (valueOf r f)) ∧
      h.failures = failuresOf e.klass r ∧
      h.owner = o r ∧
      h.object_type = e.klass.name ∧
      h.workspace_id = e.workspace_id ∧
      h.job_run_id = e.job_run_id ∧
      h.ucx_version = ucxVersion := by
  unfold HistoricalEncoder.to_historical at hok
  split at hok
  · simp at hok
  next data henc =>
    cases hok
    exact ⟨henc, rfl, rfl, rfl, rfl, rfl, rfl, rfl⟩

theorem to_historical_error_iff (e : HistoricalEncoder) (o : Record → String) (r : Record)
    (err : PyError) :
    e.to_historical o r = .error err ↔ encodeFields r e.klass.fields = .error err := by
  unfold HistoricalEncoder.to_historical
  constructor
  · intro h
    split at h
    · next henc => cases h; exact henc
    · simp at h
  · intro h
    split
    · next henc => rw [henc] at h; cases h; rfl
    · next henc => rw [henc] at h; simp at h

theorem encodeFields_append_ok (r : Record) (pre rest : List (String × JTag))
    (d tl : List (String × String)) (hpre : encodeFields r pre = .ok d)
    (hrest : encodeFields r rest = .ok tl) :
    encodeFields r (pre ++ rest) = .ok (d ++ tl) := by
  induction pre generalizing d with
  | nil =>
    simp only [encodeFields] at hpre
    cases hpre
    simpa using hrest
  | cons ft pre ih =>
    obtain ⟨f, tag⟩ := ft
    by_cases hf : f = "failures"
    · simp only [encodeFields, if_pos hf] at hpre
      simp only [List.cons_append, encodeFields, if_pos hf]
      exact ih d hpre
    · by_cases hn : valueOf r f = .jnull
      · simp only [encodeFields, if_neg hf, if_pos hn] at hpre
        simp only [List.cons_append, encodeFields, if_neg hf, if_pos hn]
        exact ih d hpre
      · simp only [encodeFields, if_neg hf, if_neg hn] at hpre
        simp only [List.cons_append, encodeFields, if_neg hf, if_neg hn, List.append_eq]
        cases het : encodeTop tag (valueOf r f) with
        | error e2 => rw [het] at hpre; simp at hpre
        | ok s =>
          rw [het] at hpre
          simp only at hpre
          cases hp : encodeFields r pre with
          | error e2 => rw [hp] at hpre; simp at hpre
          | ok tl2 =>
            rw [hp] at hpre
            simp only at hpre
            cases hpre
            rw [ih tl2 hp]
            simp

theorem encodeFields_append_err (r : Record) (pre rest : List (String × JTag))
    (d : List (String × String)) (err : PyError) (hpre : encodeFields r pre = .ok d)
    (hrest : encodeFields r rest = .error err) :
    encodeFields r (pre ++ rest) = .error err := by
  induction pre generalizing d with
  | nil =>
    simpa using hrest
  | cons ft pre ih =>
    obtain ⟨f, tag⟩ := ft
    by_cases hf : f = "failures"
    · simp only [encodeFields, if_pos hf] at hpre
      simp only [List.cons_append, encodeFields, if_pos hf]
      exact ih d hpre
    · by_cases hn : valueOf r f = .jnull
      · simp only [encodeFields, if_neg hf, if_pos hn] at hpre
        simp only [List.cons_append, encodeFields, if_neg hf, if_pos hn]
        exact ih d hpre
      · simp only [encodeFields, if_neg hf, if_neg hn] at hpre
        simp only [List.cons_append, encodeFields, if_neg hf, if_neg hn, List.append_eq]
        cases het : encodeTop tag (valueOf r f) with
        | error e2 => rw [het] at hpre; simp at hpre
        | ok s =>
          rw [het] at hpre
          simp only at hpre
          cases hp : encodeFields r pre with
          | error e2 => rw [hp] at hpre; simp at hpre
          | ok tl2 =>
            rw [ih tl2 hp]

theorem encodeFields_lookup (r : Record) (f : String) (tag : JTag) (s : String)
    (hf : f ≠ "failures") (hnn : valueOf r f ≠ .jnull)
    (het : encodeTop tag (valueOf r f) = .ok s) :
    ∀ (fields : List (String × JTag)) (d : List (String × String)),
      encodeFields r fields = .ok d → List.lookup f fields = some tag →
      List.lookup f d = some s := by
  intro fields
  induction fields with
  | nil => intro d _ hl; simp [List.lookup] at hl
  | cons gt rest ih =>
    obtain ⟨g, tg⟩ := gt
    intro d hok hl
    by_cases hgf : f = g
    · subst hgf
      simp only [List.lookup_cons_self] at hl
      cases hl
      simp only [encodeFields, if_neg hf, if_neg hnn, het] at hok
      cases hrest : encodeFields r rest with
      | error e2 => rw [hrest] at hok; simp at hok
      | ok tl =>
        rw [hrest] at hok
        simp only at hok
        cases hok
        simp [List.lookup]
    · have hbeq : (f == g) = false := beq_false_of_ne hgf
      simp only [List.lookup, hbeq] at hl
      by_cases hgfail : g = "failures"
      · simp only [encodeFields, if_pos hgfail] at hok
        exact ih d hok hl
      · by_cases hgn : valueOf r g = .jnull
        · simp only [encodeFields, if_neg hgfail, if_pos hgn] at hok
          exact ih d hok hl
        · simp only [encodeFields, if_neg hgfail, if_neg hgn] at hok
          cases het2 : encodeTop tg (valueOf r g) with
          | error e2 => rw [het2] at hok; simp at hok
          | ok s2 =>
            rw [het2] at hok
            simp only at hok
            cases hrest : encodeFields r rest with
            | error e2 => rw [hrest] at hok; simp at hok
            | ok tl =>
              rw [hrest] at hok
              simp only at hok
              cases hok
              simp only [List.lookup, hbeq]
              exact ih tl hrest hl

theorem encodeFields_lookup_absent (r : Record) (f : String) (hv : valueOf r f = .jnull) :
    ∀ (fields : List (String × JTag)) (d : List (String × String)),
      encodeFields r fields = .ok d → List.lookup f d = none := by
  intro fields
  induction fields with
  | nil => intro d hok; simp only [encodeFields] at hok; cases hok; simp [List.lookup]
  | cons gt rest ih =>
    obtain ⟨g, tg⟩ := gt
    intro d hok
    by_cases hgfail : g = "failures"
    · simp only [encodeFields, if_pos hgfail] at hok
      exact ih d hok
    · by_cases hgn : valueOf r g = .jnull
      · simp only [encodeFields, if_neg hgfail, if_pos hgn] at hok
        exact ih d hok
      · simp only [encodeFields, if_neg hgfail, if_neg hgn] at hok
        cases het2 : encodeTop tg (valueOf r g) with
        | error e2 => rw [het2] at hok; simp at hok
        | ok s2 =>
          rw [het2] at hok
          simp only at hok
          cases hrest : encodeFields r rest with
          | error e2 => rw [hrest] at hok; simp at hok
          | ok tl =>
            rw [hrest] at hok
            simp only at hok
            cases hok
            have hgf : f ≠ g := by
              intro hcon
              rw [hcon] at hv
              exact hgn hv
            simp only [List.lookup, beq_false_of_ne hgf]
            exact ih tl hrest

theorem encodeFields_no_failures (r : Record) :
    ∀ (fields : List (String × JTag)) (d : List (String × String)),
      encodeFields r fields = .ok d → List.lookup "failures" d = none := by
  intro fields
  induction fields with
  | nil => intro d hok; simp only [encodeFields] at hok; cases hok; simp [List.lookup]
  | cons gt rest ih =>
    obtain ⟨g, tg⟩ := gt
    intro d hok
    by_cases hgfail : g = "failures"
    · simp only [encodeFields, if_pos hgfail] at hok
      exact ih d hok
    · by_cases hgn : valueOf r g = .jnull
      · simp only [encodeFields, if_neg hgfail, if_pos hgn] at hok
        exact ih d hok
      · simp only [encodeFields, if_neg hgfail, if_neg hgn] at hok
        cases het2 : encodeTop tg (valueOf r g) with
        | error e2 => rw [het2] at hok; simp at hok
        | ok s2 =>
          rw [het2] at hok
          simp only at hok
          cases hrest : encodeFields r rest with
          | error e2 => rw [hrest] at hok; simp at hok
          | ok tl =>
            rw [hrest] at hok
            simp only at hok
            cases hok
            have : ("failures" == g) = false := beq_false_of_ne (fun h => hgfail h.symm)
            simp only [List.lookup, this]
            exact ih tl hrest

theorem encodeFields_error_shape (r : Record) :
    ∀ (fields : List (String × JTag)) (err : PyError), encodeFields r fields = .error err →
      ∃ f raw, err = errAt f raw := by
  intro fields
  induction fields with
  | nil => intro err h; simp [encodeFields] at h
  | cons gt rest ih =>
    obtain ⟨g, tg⟩ := gt
    intro err h
    by_cases hgfail : g = "failures"
    · simp only [encodeFields, if_pos hgfail] at h
      exact ih err h
    · by_cases hgn : valueOf r g = .jnull
      · simp only [encodeFields, if_neg hgfail, if_pos hgn] at h
        exact ih err h
      · simp only [encodeFields, if_neg hgfail, if_neg hgn] at h
        cases het2 : encodeTop tg (valueOf r g) with
        | error e2 =>
          rw [het2] at h
          simp only at h
          cases h
          exact ⟨g, e2, rfl⟩
        | ok s2 =>
          rw [het2] at h
          simp only at h
          cases hrest : encodeFields r rest with
          | error e2 =>
            rw [hrest] at h
            simp only at h
            cases h
            exact ih err hrest
          | ok tl => rw [hrest] at h; simp at h

theorem encodeAll_ok_spec (e : HistoricalEncoder) (o : Record → String) :
    ∀ (rs : List Record) (rows : List Historical), encodeAll e o rs = .ok rows →
      rows.length = rs.length ∧
        ∀ i (hi : i < rs.length) (hr : i < rows.length),
          e.to_historical o rs[i] = .ok rows[i]
  | [], rows, h => by
    simp only [encodeAll] at h
    cases h
    exact ⟨rfl, by intro i hi; simp at hi⟩
  | r :: rest, rows, h => by
    simp only [encodeAll] at h
    cases hr1 : e.to_historical o r with
    | error err => rw [hr1] at h; simp at h
    | ok hh =>
      rw [hr1] at h
      simp only at h
      cases hr2 : encodeAll e o rest with
      | error err => rw [hr2] at h; simp at h
      | ok tl =>
        rw [hr2] at h
        simp only at h
        cases h
        obtain ⟨hlen, hget⟩ := encodeAll_ok_spec e o rest tl hr2
        refine ⟨by simp [hlen], ?_⟩
        intro i hi hr
        cases i with
        | zero => simpa using hr1
        | succ j =>
          simpa using hget j (by simpa using hi) (by simpa using hr)

theorem encodeAll_mem_error (e : HistoricalEncoder) (o : Record → String) :
    ∀ (rs : List Record) (r : Record) (err : PyError), r ∈ rs →
      e.to_historical o r = .error err → ∃ err2, encodeAll e o rs = .error err2
  | [], r, err, hmem, _ => by simp at hmem
  | r0 :: rest, r, err, hmem, herr => by
    rcases List.mem_cons.mp hmem with h | h
    · subst h
      exact ⟨err, by simp [encodeAll, herr]⟩
    · cases hr1 : e.to_historical o r0 with
      | error e2 => exact ⟨e2, by simp [encodeAll, hr1]⟩
      | ok hh =>
        obtain ⟨err2, h2⟩ := encodeAll_mem_error e o rest r err h herr
        exact ⟨err2, by simp [encodeAll, hr1, h2]⟩

theorem encodeAll_ok_mem (e : HistoricalEncoder) (o : Record → String) :
    ∀ (rs : List Record) (rows : List Historical) (r : Record),
      encodeAll e o rs = .ok rows → r ∈ rs → ∃ h, e.to_historical o r = .ok h
  | [], rows, r, _, hmem => by simp at hmem
  | r0 :: rest, rows, r, hok, hmem => by
    simp only [encodeAll] at hok
    cases hr1 : e.to_historical o r0 with
    | error err => rw [hr1] at hok; simp at hok
    | ok hh =>
      rw [hr1] at hok
      simp only at hok
      cases hr2 : encodeAll e o rest with
      | error err => rw [hr2] at hok; simp at hok
      | ok tl =>
        rcases List.mem_cons.mp hmem with h | h
        · subst h
          exact ⟨hh, hr1⟩
        · exact encodeAll_ok_mem e o rest tl r hr2 h

mutual
theorem encodeJson_clean_ok : ∀ (v : JValue), containsNaive v = false → hasBadValue v = false →
    ∃ s, encodeJson v = Except.ok s
  | .jnull, _, _ => ⟨"null", rfl⟩
  | .str s, _, _ => ⟨jsonStr s, rfl⟩
  | .int n, _, _ => ⟨toString n, rfl⟩
  | .bool b, _, _ => ⟨if b then "true" else "false", rfl⟩
  | .timestamp t, h1, _ => by
    simp only [containsNaive, Bool.not_eq_false'] at h1
    exact ⟨isoZ t, by simp [encodeJson, h1]⟩
  | .pyObj d dd, _, h2 => by simp [hasBadValue] at h2
  | .list xs, h1, h2 => by
    simp only [containsNaive] at h1
    simp only [hasBadValue] at h2
    obtain ⟨parts, hp⟩ := encodeJsonList_clean_ok xs h1 h2
    exact ⟨"[" ++ String.intercalate "," parts ++ "]", by simp [encodeJson, hp]⟩
  | .record fs, h1, h2 => by
    simp only [containsNaive] at h1
    simp only [hasBadValue] at h2
    obtain ⟨parts, hp⟩ := encodeJsonFields_clean_ok fs h1 h2
    exact ⟨"\x7b" ++ String.intercalate "," parts ++ "\x7d", by simp [encodeJson, hp]⟩
theorem encodeJsonList_clean_ok : ∀ (xs : JList), containsNaiveList xs = false →
    hasBadValueList xs = false → ∃ parts, encodeJsonList xs = Except.ok parts
  | .nil, _, _ => ⟨[], rfl⟩
  | .cons v tl, h1, h2 => by
    simp only [containsNaiveList, Bool.or_eq_false_iff] at h1
    simp only [hasBadValueList, Bool.or_eq_false_iff] at h2
    obtain ⟨s, hs⟩ := encodeJson_clean_ok v h1.1 h2.1
    obtain ⟨rest, hr⟩ := encodeJsonList_clean_ok tl h1.2 h2.2
    exact ⟨s :: rest, by simp [encodeJsonList, hs, hr]⟩
theorem encodeJsonFields_clean_ok : ∀ (fs : JFields), containsNaiveFields fs = false →
    hasBadValueFields fs = false → ∃ parts, encodeJsonFields fs = Except.ok parts
  | .fnil, _, _ => ⟨[], rfl⟩
  | .fcons g v tl, h1, h2 => by
    simp only [containsNaiveFields, Bool.or_eq_false_iff] at h1
    simp only [hasBadValueFields, Bool.or_eq_false_iff] at h2
    obtain ⟨s, hs⟩ := encodeJson_clean_ok v h1.1 h2.1
    obtain ⟨rest, hr⟩ := encodeJsonFields_clean_ok tl h1.2 h2.2
    exact ⟨(jsonStr g ++ ":" ++ s) :: rest, by simp [encodeJsonFields, hs, hr]⟩
end

mutual
theorem encodeJson_naive_err : ∀ (v : JValue), containsNaive v = true → hasBadValue v = false →
    encodeJson v = Except.error RawErr.naiveTimestamp
  | .jnull, h1, _ => by simp [containsNaive] at h1
  | .str _, h1, _ => by simp [containsNaive] at h1
  | .int _, h1, _ => by simp [containsNaive] at h1
  | .bool _, h1, _ => by simp [containsNaive] at h1
  | .pyObj _ _, _, h2 => by simp [hasBadValue] at h2
  | .timestamp t, h1, _ => by
    simp only [containsNaive, Bool.not_eq_true'] at h1
    simp [encodeJson, h1]
  | .list xs, h1, h2 => by
    simp only [containsNaive] at h1
    simp only [hasBadValue] at h2
    have := encodeJsonList_naive_err xs h1 h2
    simp [encodeJson, this]
  | .record fs, h1, h2 => by
    simp only [containsNaive] at h1
    simp only [hasBadValue] at h2
    have := encodeJsonFields_naive_err fs h1 h2
    simp [encodeJson, this]
theorem encodeJsonList_naive_err : ∀ (xs : JList), containsNaiveList xs = true →
    hasBadValueList xs = false → encodeJsonList xs = Except.error RawErr.naiveTimestamp
  | .nil, h1, _ => by simp [containsNaiveList] at h1
  | .cons v tl, h1, h2 => by
    simp only [hasBadValueList, Bool.or_eq_false_iff] at h2
    cases hv : containsNaive v with
    | true =>
      have := encodeJson_naive_err v hv h2.1
      simp [encodeJsonList, this]
    | false =>
      simp only [containsNaiveList, hv, Bool.false_or] at h1
      obtain ⟨s, hs⟩ := encodeJson_clean_ok v hv h2.1
      have := encodeJsonList_naive_err tl h1 h2.2
      simp [encodeJsonList, hs, this]
theorem encodeJsonFields_naive_err : ∀ (fs : JFields), containsNaiveFields fs = true →
    hasBadValueFields fs = false → encodeJsonFields fs = Except.error RawErr.naiveTimestamp
  | .fnil, h1, _ => by simp [containsNaiveFields] at h1
  | .fcons g v tl, h1, h2 => by
    simp only [hasBadValueFields, Bool.or_eq_false_iff] at h2
    cases hv : containsNaive v with
    | true =>
      have := encodeJson_naive_err v hv h2.1
      simp [encodeJsonFields, this]
    | false =>
      simp only [containsNaiveFields, hv, Bool.false_or] at h1
      obtain ⟨s, hs⟩ := encodeJson_clean_ok v hv h2.1
      have := encodeJsonFields_naive_err tl h1 h2.2
      simp [encodeJsonFields, hs, this]
end

mutual
theorem encodeJson_bad_err : ∀ (v : JValue), hasBadValue v = true → containsNaive v = false →
    ∃ d dd, encodeJson v = Except.error (RawErr.badValue d dd)
  | .jnull, h1, _ => by simp [hasBadValue] at h1
  | .str _, h1, _ => by simp [hasBadValue] at h1
  | .int _, h1, _ => by simp [hasBadValue] at h1
  | .bool _, h1, _ => by simp [hasBadValue] at h1
  | .timestamp _, h1, _ => by simp [hasBadValue] at h1
  | .pyObj d dd, _, _ => ⟨d, dd, rfl⟩
  | .list xs, h1, h2 => by
    simp only [hasBadValue] at h1
    simp only [containsNaive] at h2
    obtain ⟨d, dd, hx⟩ := encodeJsonList_bad_err xs h1 h2
    exact ⟨d, dd, by simp [encodeJson, hx]⟩
  | .record fs, h1, h2 => by
    simp only [hasBadValue] at h1
    simp only [containsNaive] at h2
    obtain ⟨d, dd, hx⟩ := encodeJsonFields_bad_err fs h1 h2
    exact ⟨d, dd, by simp [encodeJson, hx]⟩
theorem encodeJsonList_bad_err : ∀ (xs : JList), hasBadValueList xs = true →
    containsNaiveList xs = false → ∃ d dd, encodeJsonList xs = Except.error (RawErr.badValue d dd)
  | .nil, h1, _ => by simp [hasBadValueList] at h1
  | .cons v tl, h1, h2 => by
    simp only [containsNaiveList, Bool.or_eq_false_iff] at h2
    cases hv : hasBadValue v with
    | true =>
      obtain ⟨d, dd, hs⟩ := encodeJson_bad_err v hv h2.1
      exact ⟨d, dd, by simp [encodeJsonList, hs]⟩
    | false =>
      simp only [hasBadValueList, hv, Bool.false_or] at h1
      obtain ⟨s, hs⟩ := encodeJson_clean_ok v h2.1 hv
      obtain ⟨d, dd, htl⟩ := encodeJsonList_bad_err tl h1 h2.2
      exact ⟨d, dd, by simp [encodeJsonList, hs, htl]⟩
theorem encodeJsonFields_bad_err : ∀ (fs : JFields), hasBadValueFields fs = true →
    containsNaiveFields fs = false → ∃ d dd, encodeJsonFields fs = Except.error (RawErr.badValue d dd)
  | .fnil, h1, _ => by simp [hasBadValueFields] at h1
  | .fcons g v tl, h1, h2 => by
    simp only [containsNaiveFields, Bool.or_eq_false_iff] at h2
    cases hv : hasBadValue v with
    | true =>
      obtain ⟨d, dd, hs⟩ := encodeJson_bad_err v hv h2.1
      exact ⟨d, dd, by simp [encodeJsonFields, hs]⟩
    | false =>
      simp only [hasBadValueFields, hv, Bool.false_or] at h1
      obtain ⟨s, hs⟩ := encodeJson_clean_ok v h2.1 hv
      obtain ⟨d, dd, htl⟩ := encodeJsonFields_bad_err tl h1 h2.2
      exact ⟨d, dd, by simp [encodeJsonFields, hs, htl]⟩
end

theorem encodeFields_field_error (r : Record) (pre post : List (String × JTag))
    (f : String) (tag : JTag) (d : List (String × String)) (raw : RawErr)
    (hpre : encodeFields r pre = .ok d) (hf : f ≠ "failures")
    (het : encodeTop tag (valueOf r f) = .error raw) :
    encodeFields r (pre ++ (f, tag) :: post) = .error (errAt f raw) := by
  have hnn : valueOf r f ≠ .jnull := by
    intro hcon
    rw [hcon, encodeTop_jnull] at het
    simp at het
  have hcons : encodeFields r ((f, tag) :: post) = .error (errAt f raw) := by
    simp only [encodeFields, if_neg hf, if_neg hnn, het]
  exact encodeFields_append_err r pre ((f, tag) :: post) d (errAt f raw) hpre hcons

theorem encodeJsonFields_length : ∀ (fs : JFields) (parts : List String),
    encodeJsonFields fs = .ok parts → parts.length = fs.size
  | .fnil, parts, h => by
    simp only [encodeJsonFields] at h
    cases h
    rfl
  | .fcons g v tl, parts, h => by
    simp only [encodeJsonFields] at h
    cases hs : encodeJson v with
    | error e => rw [hs] at h; simp at h
    | ok s =>
      rw [hs] at h
      simp only at h
      cases hr : encodeJsonFields tl with
      | error e => rw [hr] at h; simp at h
      | ok rest =>
        rw [hr] at h
        simp only at h
        cases h
        simp [JFields.size, encodeJsonFields_length tl rest hr]

theorem encodeJsonFields_null_part : ∀ (fs : JFields) (parts : List String) (i : Nat) (g : String),
    encodeJsonFields fs = .ok parts → fs.nth i = some (g, .jnull) →
    parts[i]? = some (jsonStr g ++ ":null")
  | .fnil, _, i, _, _, hn => by simp [JFields.nth] at hn
  | .fcons g0 v tl, parts, i, g, h, hn => by
    simp only [encodeJsonFields] at h
    cases hs : encodeJson v with
    | error e => rw [hs] at h; simp at h
    | ok s =>
      rw [hs] at h
      simp only at h
      cases hr : encodeJsonFields tl with
      | error e => rw [hr] at h; simp at h
      | ok rest =>
        rw [hr] at h
        simp only at h
        cases h
        cases i with
        | zero =>
          simp only [JFields.nth, Option.some.injEq, Prod.mk.injEq] at hn
          obtain ⟨hg, hv⟩ := hn
          rw [hv] at hs
          simp only [encodeJson] at hs
          cases hs
          rw [← hg]
          simp only [List.getElem?_cons_zero, Option.some.injEq]
          rw [String.append_assoc]
          exact congrArg (fun t => jsonStr g0 ++ t) (by decide)
        | succ j =>
          simp only [JFields.nth] at hn
          simpa using encodeJsonFields_null_part tl rest j g hr hn

theorem full_name_default_append (c : String) :
    c ++ "." ++ "ucx" ++ "." ++ "history" = c ++ ".ucx.history" := by
  simp only [String.append_assoc]
  exact congrArg (fun t => c ++ t) (by decide)

theorem map_strOf_valueOf_eq (r : Record) (v : String → String) :
    ∀ (l : List String), (∀ f ∈ l, valueOf r f = .str (v f)) →
      l.map (fun f => strOf (valueOf r f)) = l.map v := by
  intro l
  induction l with
  | nil => intro _; rfl
  | cons a tl ih =>
    intro hv
    simp only [List.map_cons, List.cons.injEq]
    constructor
    · rw [hv a (by simp)]
      rfl
    · exact ih (fun f hf => hv f (by simp [hf]))

/-- C10: `PipelineMapping.load` turns an absent mapping file (NotFound) into
`ValueError("Please create pipeline mapping file")`, never propagates the
NotFound error itself, and on success returns the loaded rules unchanged. -/
theorem pipeline_mapping_load_spec :
    (∀ rules : List PipelineRule, PipelineMapping.load (.ok rules) = .ok rules) ∧
      PipelineMapping.load (.error .notFound) =
        .error (.valueError "Please create pipeline mapping file") ∧
      ∀ result, isNotFoundResult (PipelineMapping.load result) = false := by
  refine ⟨fun rules => rfl, rfl, ?_⟩
  intro result
  rcases result with err | rules
  · cases err <;> rfl
  · rfl

/-- C5: encoder construction validates the record type's shape exactly once,
eagerly: a missing or empty identity-fields declaration fails with a
missing-attribute error; a non-string identity field fails with a type error;
a failures field whose type is not an ordered sequence of string fails with a
type error; construction succeeds when all checks pass; and `to_historical`
performs no shape validation — every error it returns is a per-field encoding
error. -/
theorem historical_encoder_construction_validation :
    (∀ (jr wi : Int) (k : RecordType), k.idFields = none ∨ k.idFields = some [] →
      HistoricalEncoder.make jr wi k = .error (.attributeError k.name "__id_fields__")) ∧
    (∀ (jr wi : Int) (k : RecordType) (ids : List String) (f : String),
      k.idFields = some ids → findNonStringId k.fields ids = some f →
      HistoricalEncoder.make jr wi k =
        .error (.typeError ("Historical record class id field is not a string: " ++ f))) ∧
    (∀ (jr wi : Int) (k : RecordType) (ids : List String) (tag : JTag),
      k.idFields = some ids → ids ≠ [] → findNonStringId k.fields ids = none →
      List.lookup "failures" k.fields = some tag → tag ≠ .seq .string →
      HistoricalEncoder.make jr wi k =
        .error (.typeError ("Historical record class has invalid failures type: " ++ tag.typeName))) ∧
    (∀ (jr wi : Int) (k : RecordType) (ids : List String),
      k.idFields = some ids → ids ≠ [] → findNonStringId k.fields ids = none →
      (∀ tag, List.lookup "failures" k.fields = some tag → tag = .seq .string) →
      HistoricalEncoder.make jr wi k = .ok ⟨jr, wi, k, ids⟩) ∧
    (∀ (e : HistoricalEncoder) (o : Record → String) (r : Record) (err : PyError),
      e.to_historical o r = .error err → ∃ f raw, err = errAt f raw) := by
  refine ⟨?_, ?_, ?_, ?_, ?_⟩
  · intro jr wi k h
    rcases h with h | h <;> simp [HistoricalEncoder.make, h]
  · intro jr wi k ids f hid hfind
    cases ids with
    | nil => simp [findNonStringId] at hfind
    | cons a tl => simp [HistoricalEncoder.make, hid, hfind]
  · intro jr wi k ids tag hid hne hfind hlf htag
    cases ids with
    | nil => exact absurd rfl hne
    | cons a tl => simp [HistoricalEncoder.make, hid, hfind, hlf, htag]
  · intro jr wi k ids hid hne hfind hall
    cases ids with
    | nil => exact absurd rfl hne
    | cons a tl =>
      cases hlf : List.lookup "failures" k.fields with
      | none => simp [HistoricalEncoder.make, hid, hfind, hlf]
      | some tag =>
        have := hall tag hlf
        subst this
        simp [HistoricalEncoder.make, hid, hfind, hlf]
  · intro e o r err h
    exact encodeFields_error_shape r e.klass.fields err
      ((to_historical_error_iff e o r err).mp h)

theorem historical_encoder_construction_validation_witness :
    HistoricalEncoder.make 1 1 ⟨"_NoIdFields", [], none⟩ =
        .error (.attributeError "_NoIdFields" "__id_fields__") ∧
      HistoricalEncoder.make 1 1
          ⟨"_WrongTypeIdFields", [("ok", .string), ("not_ok", .int)], some ["ok", "not_ok"]⟩ =
        .error (.typeError "Historical record class id field is not a string: not_ok") ∧
      HistoricalEncoder.make 1 2
          ⟨"_BrokenFailures", [("a_field", .string), ("failures", .seq .int)], some ["a_field"]⟩ =
        .error (.typeError "Historical record class has invalid failures type: list[int]") := by
  refine ⟨?_, ?_, ?_⟩
  · exact historical_encoder_construction_validation.1 1 1 ⟨"_NoIdFields", [], none⟩ (Or.inl rfl)
  · exact historical_encoder_construction_validation.2.1 1 1
      ⟨"_WrongTypeIdFields", [("ok", .string), ("not_ok", .int)], some ["ok", "not_ok"]⟩
      ["ok", "not_ok"] "not_ok" rfl (by decide)
  · exact historical_encoder_construction_validation.2.2.1 1 2
      ⟨"_BrokenFailures", [("a_field", .string), ("failures", .seq .int)], some ["a_field"]⟩
      ["a_field"] (.seq .int) rfl (by decide) (by decide) rfl (by decide)

/-- C2: `object_id` is the list of the record's identity-field values, in the
declared identity-field order (which may differ from the record type's own
field-declaration order), and its length equals the number of declared
identity fields. -/
theorem to_historical_object_id (jr wi : Int) (k : RecordType) (e : HistoricalEncoder)
    (ids : List String) (o : Record → String) (r : Record) (h : Historical)
    (v : String → String)
    (hmake : HistoricalEncoder.make jr wi k = .ok e)
    (hids : k.idFields = some ids)
    (hvals : ∀ f ∈ ids, valueOf r f = .str (v f))
    (hok : e.to_historical o r = .ok h) :
    h.object_id = ids.map v ∧ h.object_id.length = ids.length := by
  obtain ⟨hk, hjr, hwi, hid2⟩ := make_ok_spec jr wi k e hmake
  obtain ⟨hdata, hoid, hrest⟩ := to_historical_ok e o r h hok
  rw [hids] at hid2
  injection hid2 with h2
  rw [← h2] at hoid
  constructor
  · rw [hoid]
    exact map_strOf_valueOf_eq r v ids hvals
  · rw [hoid]
    simp

theorem to_historical_object_id_witness :
    compoundKeyHistorical.object_id = ["field-a", "field-c", "field-b"] ∧
      compoundKeyHistorical.object_id.length = ["a_field", "c_field", "b_field"].length := by
  have h := to_historical_object_id 1 2 compoundKeyClass compoundKeyEncoder
    ["a_field", "c_field", "b_field"] ownerConst compoundKeyRecord
    compoundKeyHistorical compoundKeyValue rfl rfl (by decide) rfl
  exact ⟨h.1.trans (by decide), h.2⟩

/-- C1: string-typed (including nullable-string) fields appear in `data` with
their value copied verbatim — no quoting or escaping, even if the content
looks like JSON — and present non-string fields appear as the canonical
compact JSON text of their value: integers as decimal text, booleans as
lowercase true/false, aware timestamps as ISO-8601 UTC with a literal Z
suffix, and sequences and nested records as compact JSON applying the same
rules recursively. -/
theorem to_historical_data_encoding :
    (∀ (jr wi : Int) (k : RecordType) (e : HistoricalEncoder) (o : Record → String)
       (r : Record) (f : String) (tag : JTag) (s : String) (h : Historical),
      HistoricalEncoder.make jr wi k = .ok e → List.lookup f k.fields = some tag →
      tag.isStringLike = true → f ≠ "failures" → valueOf r f = .str s →
      e.to_historical o r = .ok h → List.lookup f h.data = some s) ∧
    (∀ (jr wi : Int) (k : RecordType) (e : HistoricalEncoder) (o : Record → String)
       (r : Record) (f : String) (tag : JTag) (s : String) (h : Historical),
      HistoricalEncoder.make jr wi k = .ok e → List.lookup f k.fields = some tag →
      tag.isStringLike = false → f ≠ "failures" → valueOf r f ≠ .jnull →
      encodeJson (valueOf r f) = .ok s →
      e.to_historical o r = .ok h → List.lookup f h.data = some s) ∧
    (∀ n : Int, encodeJson (.int n) = .ok (toString n)) ∧
    (encodeJson (.bool true) = .ok "true" ∧ encodeJson (.bool false) = .ok "false") ∧
    (∀ t : Timestamp, t.aware = true → encodeJson (.timestamp t) = .ok (isoZ t)) ∧
    encodeJson (.timestamp ⟨2024, 10, 15, 12, 44, 16, true⟩) = .ok "2024-10-15T12:44:16Z" ∧
    (∀ (xs : JList) (parts : List String), encodeJsonList xs = .ok parts →
      encodeJson (.list xs) = .ok ("[" ++ String.intercalate "," parts ++ "]")) ∧
    (∀ (fs : JFields) (parts : List String), encodeJsonFields fs = .ok parts →
      encodeJson (.record fs) = .ok ("\x7b" ++ String.intercalate "," parts ++ "\x7d")) := by
  refine ⟨?_, ?_, fun n => rfl, ⟨rfl, rfl⟩, ?_, rfl, ?_, ?_⟩
  · intro jr wi k e o r f tag s h hmake hl hsl hf hv hok
    obtain ⟨hk, _, _, _⟩ := make_ok_spec jr wi k e hmake
    obtain ⟨hdata, _⟩ := to_historical_ok e o r h hok
    rw [hk] at hdata
    have hnn : valueOf r f ≠ .jnull := by rw [hv]; intro hcon; cases hcon
    have het : encodeTop tag (valueOf r f) = .ok s := by
      rw [hv]
      exact encodeTop_stringLike_str tag s hsl
    exact encodeFields_lookup r f tag s hf hnn het k.fields h.data hdata hl
  · intro jr wi k e o r f tag s h hmake hl hsl hf hnn hjson hok
    obtain ⟨hk, _, _, _⟩ := make_ok_spec jr wi k e hmake
    obtain ⟨hdata, _⟩ := to_historical_ok e o r h hok
    rw [hk] at hdata
    have het : encodeTop tag (valueOf r f) = .ok s := by
      rw [encodeTop_not_stringLike tag (valueOf r f) hsl]
      exact hjson
    exact encodeFields_lookup r f tag s hf hnn het k.fields h.data hdata hl
  · intro t ht
    simp [encodeJson, ht]
  · intro xs parts hp
    simp [encodeJson, hp]
  · intro fs parts hp
    simp [encodeJson, hp]

theorem to_historical_data_encoding_witness :
    List.lookup "existing_json_field" stringsHistorical.data = some "[1, 2, 3]" :=
  to_historical_data_encoding.1 1 2 stringsClass stringsEncoder ownerConst
    stringsRecordValue "existing_json_field" .string "[1, 2, 3]" stringsHistorical
    rfl rfl rfl (by decide) rfl rfl

/-- C4: a top-level field whose value is absent is omitted entirely from
`data`, whereas an absent optional field inside a nested structured value is
encoded as JSON null within the nested compact-JSON text — kept in position as
a `"name":null` part, never omitted. -/
theorem to_historical_absent_fields :
    (∀ (e : HistoricalEncoder) (o : Record → String) (r : Record) (f : String) (h : Historical),
      valueOf r f = .jnull → e.to_historical o r = .ok h → List.lookup f h.data = none) ∧
    (∀ (fs : JFields) (parts : List String), encodeJsonFields fs = .ok parts →
      parts.length = fs.size ∧
        ∀ (i : Nat) (g : String), fs.nth i = some (g, .jnull) →
          parts[i]? = some (jsonStr g ++ ":null")) ∧
    encodeJson (.record (.fcons "optional_field" .jnull .fnil)) =
      .ok "\x7b\"optional_field\":null\x7d" := by
  refine ⟨?_, ?_, rfl⟩
  · intro e o r f h hv hok
    obtain ⟨hdata, _⟩ := to_historical_ok e o r h hok
    exact encodeFields_lookup_absent r f hv e.klass.fields h.data hdata
  · intro fs parts hp
    exact ⟨encodeJsonFields_length fs parts hp,
      fun i g hn => encodeJsonFields_null_part fs parts i g hp hn⟩

theorem to_historical_absent_fields_witness :
    List.lookup "optional_field" optionalHistorical.data = none :=
  to_historical_absent_fields.1 optionalEncoder ownerConst optionalRecord
    "optional_field" optionalHistorical rfl rfl

/-- C8: the `failures` attribute of a produced row equals the value of the
record's designated failures field (or the empty sequence when the type
declares no failures field), and `data` never contains the failures field
name. -/
theorem to_historical_failures :
    (∀ (jr wi : Int) (k : RecordType) (e : HistoricalEncoder) (o : Record → String)
       (r : Record) (h : Historical) (strs : List String),
      HistoricalEncoder.make jr wi k = .ok e → k.hasFailuresField = true →
      valueOf r "failures" = .list (ofStrings strs) →
      e.to_historical o r = .ok h → h.failures = strs) ∧
    (∀ (jr wi : Int) (k : RecordType) (e : HistoricalEncoder) (o : Record → String)
       (r : Record) (h : Historical),
      HistoricalEncoder.make jr wi k = .ok e → k.hasFailuresField = false →
      e.to_historical o r = .ok h → h.failures = []) ∧
    (∀ (e : HistoricalEncoder) (o : Record → String) (r : Record) (h : Historical),
      e.to_historical o r = .ok h → List.lookup "failures" h.data = none) := by
  refine ⟨?_, ?_, ?_⟩
  · intro jr wi k e o r h strs hmake hhas hv hok
    obtain ⟨hk, _, _, _⟩ := make_ok_spec jr wi k e hmake
    obtain ⟨_, _, hfail, _⟩ := to_historical_ok e o r h hok
    rw [hk] at hfail
    rw [hfail]
    simp [failuresOf, hhas, hv, toStrings_ofStrings]
  · intro jr wi k e o r h hmake hhas hok
    obtain ⟨hk, _, _, _⟩ := make_ok_spec jr wi k e hmake
    obtain ⟨_, _, hfail, _⟩ := to_historical_ok e o r h hok
    rw [hk] at hfail
    rw [hfail]
    simp [failuresOf, hhas]
  · intro e o r h hok
    obtain ⟨hdata, _⟩ := to_historical_ok e o r h hok
    exact encodeFields_no_failures r e.klass.fields h.data hdata

theorem to_historical_failures_witness :
    testFooHistorical.failures = ["failures-1", "failures-2"] :=
  to_historical_failures.1 1 2 testRecordType testRecordEncoder ownerConst
    testRecordFoo testFooHistorical ["failures-1", "failures-2"] rfl rfl rfl rfl

/-- C3: a timezone-naive timestamp anywhere in a field's value — at the top
level or nested arbitrarily deep (with no unrepresentable value in the tree)
— makes value encoding fail with the naive-timestamp error, and when that
happens while encoding a field, `to_historical` raises a value error whose
message is "Timestamp without timezone not supported in or within field
<field>" where <field> is the outermost field being encoded. -/
theorem to_historical_naive_timestamp_error :
    (∀ v : JValue, containsNaive v = true → hasBadValue v = false →
      encodeJson v = .error .naiveTimestamp) ∧
    (∀ (jr wi : Int) (k : RecordType) (e : HistoricalEncoder) (o : Record → String)
       (r : Record) (pre post : List (String × JTag)) (f : String) (tag : JTag)
       (d : List (String × String)),
      HistoricalEncoder.make jr wi k = .ok e →
      k.fields = pre ++ (f, tag) :: post →
      encodeFields r pre = .ok d → f ≠ "failures" →
      encodeTop tag (valueOf r f) = .error .naiveTimestamp →
      e.to_historical o r =
        .error (.valueError
          ("Timestamp without timezone not supported in or within field " ++ f))) := by
  refine ⟨encodeJson_naive_err, ?_⟩
  intro jr wi k e o r pre post f tag d hmake hfields hpre hf het
  obtain ⟨hk, _, _, _⟩ := make_ok_spec jr wi k e hmake
  have henc : encodeFields r e.klass.fields = .error (errAt f .naiveTimestamp) := by
    rw [hk, hfields]
    exact encodeFields_field_error r pre post f tag d .naiveTimestamp hpre hf het
  exact (to_historical_error_iff e o r _).mpr henc

theorem to_historical_naive_timestamp_error_witness :
    naiveTsEncoder.to_historical ownerConst naiveTsRecordInner =
      .error (.valueError "Timestamp without timezone not supported in or within field inner") :=
  to_historical_naive_timestamp_error.2 1 2 naiveTsClass naiveTsEncoder ownerConst
    naiveTsRecordInner [("object_id", .string), ("a_field", .option .timestamp)] []
    "inner" (.option (.nested "_InnerClassWithTimestamp"))
    [("object_id", "not used")] rfl rfl rfl (by decide) rfl

/-- C7: an unrepresentable value anywhere in a field's value tree — at the top
level or nested arbitrarily deep (with no naive timestamp in the tree) —
makes value encoding fail with a cannot-encode error, and when that happens
while encoding a field, `to_historical` raises a type error whose message is
"Cannot encode <value-description> value in or within field <field>: <detail>"
naming the outermost field being encoded. -/
theorem to_historical_unencodable_error :
    (∀ v : JValue, hasBadValue v = true → containsNaive v = false →
      ∃ d dd, encodeJson v = .error (.badValue d dd)) ∧
    (∀ (jr wi : Int) (k : RecordType) (e : HistoricalEncoder) (o : Record → String)
       (r : Record) (pre post : List (String × JTag)) (f : String) (tag : JTag)
       (d : List (String × String)) (descr detail : String),
      HistoricalEncoder.make jr wi k = .ok e →
      k.fields = pre ++ (f, tag) :: post →
      encodeFields r pre = .ok d → f ≠ "failures" →
      encodeTop tag (valueOf r f) = .error (.badValue descr detail) →
      e.to_historical o r =
        .error (.typeError
          ("Cannot encode " ++ descr ++ " value in or within field " ++ f ++ ": " ++ detail))) := by
  refine ⟨encodeJson_bad_err, ?_⟩
  intro jr wi k e o r pre post f tag d descr detail hmake hfields hpre hf het
  obtain ⟨hk, _, _, _⟩ := make_ok_spec jr wi k e hmake
  have henc : encodeFields r e.klass.fields = .error (errAt f (.badValue descr detail)) := by
    rw [hk, hfields]
    exact encodeFields_field_error r pre post f tag d (.badValue descr detail) hpre hf het
  exact (to_historical_error_iff e o r _).mpr henc

theorem to_historical_unencodable_error_witness :
    badValueEncoder.to_historical ownerConst badValueRecordInner =
      .error (.typeError
        "Cannot encode object value in or within field inner: Object of type object is not JSON serializable") :=
  to_historical_unencodable_error.2 1 2 badValueClass badValueEncoder ownerConst
    badValueRecordInner [("object_id", .string), ("a_field", .option .obj)] []
    "inner" (.option (.nested "_InnerClassWithUnserializable"))
    [("object_id", "not used")] "object" "Object of type object is not JSON serializable"
    rfl rfl rfl (by decide) rfl

/-- C6: a successful snapshot append performs exactly one backend append call,
in append mode, to the log's fully-qualified `catalog.schema.table` name, with
exactly one row per input record, in input order and multiplicity (no
deduplication, sorting, or filtering); and a log built without schema or
table defaults its location to `<catalog>.ucx.history`. -/
theorem append_inventory_snapshot_rows :
    (∀ (l : HistoryLog) (o : Record → String) (records : List Record)
       (calls : List AppendCall),
      l.append_inventory_snapshot o records = .ok calls →
      ∃ rows, calls = [⟨l.full_name, rows, "append"⟩] ∧
        rows.length = records.length ∧
        ∀ i (hi : i < records.length) (hr : i < rows.length),
          l.encoder.to_historical o records[i] = .ok rows[i]) ∧
    (∀ (k : RecordType) (run_id workspace_id : Int) (catalog : String) (l : HistoryLog),
      HistoryLog.make k run_id workspace_id catalog none none = .ok l →
      l.full_name = catalog ++ ".ucx.history") := by
  constructor
  · intro l o records calls hok
    unfold HistoryLog.append_inventory_snapshot at hok
    cases henc : encodeAll l.encoder o records with
    | error err => rw [henc] at hok; simp at hok
    | ok rows =>
      rw [henc] at hok
      simp only at hok
      cases hok
      obtain ⟨hlen, hget⟩ := encodeAll_ok_spec l.encoder o records rows henc
      exact ⟨rows, rfl, hlen, hget⟩
  · intro k run_id workspace_id catalog l hmk
    unfold HistoryLog.make at hmk
    cases hge : HistoricalEncoder.make run_id workspace_id k with
    | error e => rw [hge] at hmk; simp at hmk
    | ok enc =>
      rw [hge] at hmk
      simp only at hmk
      cases hmk
      show catalog ++ "." ++ "ucx" ++ "." ++ "history" = catalog ++ ".ucx.history"
      exact full_name_default_append catalog

theorem append_inventory_snapshot_rows_witness :
    ∃ rows, [(⟨"the_catalog.the_schema.the_table", [testFooHistorical], "append"⟩ : AppendCall)] =
        [⟨testLog.full_name, rows, "append"⟩] ∧
      rows.length = [testRecordFoo].length ∧
      ∀ i (hi : i < [testRecordFoo].length) (hr : i < rows.length),
        testLog.encoder.to_historical ownerConst [testRecordFoo][i] = .ok rows[i] :=
  append_inventory_snapshot_rows.1 testLog ownerConst [testRecordFoo]
    [⟨"the_catalog.the_schema.the_table", [testFooHistorical], "append"⟩] rfl

/-- C9: the snapshot append is atomic with respect to encoding failures: all
records are encoded eagerly, in full, before the single append call, so if any
record in the batch fails to encode the whole call fails and no backend append
call is produced; conversely a successful call has encoded every record. -/
theorem append_inventory_snapshot_atomic :
    (∀ (l : HistoryLog) (o : Record → String) (records : List Record) (r : Record),
      r ∈ records → (∃ err, l.encoder.to_historical o r = .error err) →
      ∃ err2, l.append_inventory_snapshot o records = .error err2) ∧
    (∀ (l : HistoryLog) (o : Record → String) (records : List Record)
       (calls : List AppendCall) (r : Record),
      l.append_inventory_snapshot o records = .ok calls → r ∈ records →
      ∃ h, l.encoder.to_historical o r = .ok h) := by
  constructor
  · intro l o records r hmem hex
    obtain ⟨err, herr⟩ := hex
    obtain ⟨err2, h2⟩ := encodeAll_mem_error l.encoder o records r err hmem herr
    exact ⟨err2, by simp [HistoryLog.append_inventory_snapshot, h2]⟩
  · intro l o records calls r hok hmem
    unfold HistoryLog.append_inventory_snapshot at hok
    cases henc : encodeAll l.encoder o records with
    | error err => rw [henc] at hok; simp at hok
    | ok rows => exact encodeAll_ok_mem l.encoder o records rows r henc hmem

theorem append_inventory_snapshot_atomic_witness :
    ∃ err2, testLog.append_inventory_snapshot ownerConst [testRecordFoo, badTsRecord] =
      .error err2 :=
  append_inventory_snapshot_atomic.1 testLog ownerConst [testRecordFoo, badTsRecord]
    badTsRecord (by decide)
    ⟨.valueError "Timestamp without timezone not supported in or within field b_field", rfl⟩
